import Mathlib

/-!
# Verification of the controller-util reconcile core

Shallow embedding of the `core` package of dominodatalab/controller-util:
the condition buffer / merge algorithm (`conditions.go`, given here as
`src/unnamed/part_000`) and the reconcile-cycle orchestrator
(`src/core/reconciler.go`).

Modelling conventions:
* `metav1.Time` is modelled as a `Nat`; the value `0` plays the role of the
  zero time (`Time.IsZero`), and each call of `time.Now()` during a cycle is
  supplied as an explicit `now : Nat` argument.
* `metav1.ConditionStatus` is a Go string type, so condition status is a
  `String` here as well (values `"True"`, `"False"`, `"Unknown"`).
* Go errors are modelled as `Option String` (`none` = nil error).
* The external resource store (`client.Get` / `client.Patch`) is an input to
  the cycle: the fetch outcome and the two patch outcomes are fields of
  `CycleInput`, and the patch *calls* made by the engine are recorded in the
  `CycleOutput` so that persistence behaviour can be stated.
-/

namespace CtrlUtil

/-- Embedding of `metav1.Condition`: type, status, reason, message,
observed generation (int64) and last transition time (`metav1.Time`,
`0` = zero time). -/
structure Condition where
  type : String
  status : String
  reason : String
  message : String
  observedGeneration : Int
  lastTransitionTime : Nat
deriving DecidableEq, Repr

/-- Embedding of `FindStatusCondition` (part_000 lines 104-112).

The Go loop is `for _, cond := range conditions { if cond.Type == conditionType
{ return &cond } }`: the loop variable `cond` is a *copy* of the slice element,
and the function returns a pointer to that copy, not a pointer into the slice.
An `Option Condition` (a value, detached from the list) is therefore the
faithful embedding of what the caller receives. -/
def FindStatusCondition (conditions : List Condition) (conditionType : String) :
    Option Condition :=
  conditions.find? (fun cond => cond.type == conditionType)

/-- Embedding of `SetStatusCondition` (part_000 lines 78-102).

When no condition of the new condition's type exists, the new condition is
appended, with its last transition time defaulted to `now` when zero.

When one exists, the Go code writes `existing.Status`,
`existing.LastTransitionTime`, `existing.Reason` and `existing.Message`
through the pointer returned by `FindStatusCondition` — but that pointer
points at the `range` loop's copy of the entry (see `FindStatusCondition`
above), so none of those writes reach the slice: the condition list is
returned unchanged. `mergeWrites` below computes the values the code writes
into the detached copy, so the write that was performed (and lost) can still
be talked about. -/
def mergeWrites (existing : Condition) (now : Nat) (newCondition : Condition) :
    Condition :=
  let existing :=
    if existing.status ≠ newCondition.status then
      { existing with
        status := newCondition.status
        lastTransitionTime :=
          if newCondition.lastTransitionTime ≠ 0 then
            newCondition.lastTransitionTime
          else now }
    else existing
  { existing with reason := newCondition.reason, message := newCondition.message }

def SetStatusCondition (now : Nat) (conditions : List Condition)
    (newCondition : Condition) : List Condition :=
  match FindStatusCondition conditions newCondition.type with
  | none =>
      let newCondition :=
        if newCondition.lastTransitionTime = 0 then
          { newCondition with lastTransitionTime := now }
        else newCondition
      conditions ++ [newCondition]
  | some existing =>
      -- the merged entry is computed into the detached copy and discarded;
      -- the list itself is not modified by the Go code
      let _ := mergeWrites existing now newCondition
      conditions

/-- Embedding of the `h.pending[cond.Type] = cond` map assignment of
`conditionHelper.SetCondition` (part_000 lines 42-47): the pending buffer is
kept as a list with at most one entry per type, and an assignment replaces
the entry of that type or appends a new one. (A Go map has no iteration
order; the list order here is one admissible order.) -/
def pendingAssign (pending : List Condition) (cond : Condition) : List Condition :=
  if pending.any (fun p => p.type == cond.type) then
    pending.map (fun p => if p.type == cond.type then cond else p)
  else pending ++ [cond]

/-- Embedding of `conditionHelper.SetCondition` (part_000 lines 42-47):
defaults the observed generation to the resource's current generation
(`h.obj.GetGeneration()`, passed here as `generation`) when the caller left
it zero, then stores the condition in the pending buffer keyed by type. -/
def SetCondition (generation : Int) (pending : List Condition)
    (cond : Condition) : List Condition :=
  let cond :=
    if cond.observedGeneration = 0 then
      { cond with observedGeneration := generation }
    else cond
  pendingAssign pending cond

/-- Embedding of `conditionHelper.Set` (part_000 lines 49-56): builds a
condition with zero observed generation and zero last transition time and
stages it. -/
def helperSet (generation : Int) (pending : List Condition)
    (conditionType status reason message : String) : List Condition :=
  SetCondition generation pending
    { type := conditionType, status := status, reason := reason,
      message := message, observedGeneration := 0, lastTransitionTime := 0 }

/-- Embedding of `conditionHelper.Flush` (part_000 lines 27-40).

`hasConditions` models the `h.obj.(ConditionObject)` type assertion: when the
resource does not expose a condition list the function returns nil without
touching anything (note: the Go code returns *before* clearing the pending
map in that case). Otherwise every pending condition is merged into the
resource's condition list via `SetStatusCondition` and the buffer is cleared.
Returns (new condition list, new pending buffer). -/
def FlushPending (hasConditions : Bool) (now : Nat)
    (pending conditions : List Condition) : List Condition × List Condition :=
  if !hasConditions then (conditions, pending)
  else (pending.foldl (SetStatusCondition now) conditions, [])

/-- A condition list entry used as concrete input: `Ready = False`. -/
def readyOld : Condition :=
  { type := "Ready", status := "False", reason := "Old", message := "old",
    observedGeneration := 1, lastTransitionTime := 1 }

/-- The staged condition used as concrete input: `Ready = True`. -/
def readyNew : Condition :=
  { type := "Ready", status := "True", reason := "Done", message := "done",
    observedGeneration := 1, lastTransitionTime := 0 }

/-! ## The reconcile-cycle orchestrator (src/core/reconciler.go) -/

/-- The reserved skip-reconcile annotation key (reconciler.go line 24). -/
def SkipReconcileAnnotation : String :=
  "controller-util.dominodatalab.com/skip-reconcile"

/-- Embedding of `ctrl.Result`: `Requeue` and `RequeueAfter`
(a `time.Duration`, an int64). -/
structure GoResult where
  requeue : Bool
  requeueAfter : Int
deriving DecidableEq, Repr

def zeroResult : GoResult := { requeue := false, requeueAfter := 0 }

/-- The state of the working resource copy (`client.Object`): identity,
generation, metadata maps, finalizer list, condition list and deletion
timestamp (`0` = zero = not being deleted). Maps are association lists with
unique keys. -/
structure ObjectState where
  name : String
  ns : String
  generation : Int
  labels : List (String × String)
  annotations : List (String × String)
  finalizers : List String
  conditions : List Condition
  deletionTimestamp : Nat
deriving DecidableEq, Repr

/-- Go map lookup on an association list (first matching key). -/
def lookupStr (m : List (String × String)) (k : String) : Option String :=
  (m.find? (fun kv => kv.1 == k)).map (fun kv => kv.2)

/-- `obj := r.apiType.DeepCopyObject()` followed by `obj.SetName(req.Name)`
and `obj.SetNamespace(req.Namespace)` (reconciler.go lines 209-210): a bare
resource with only the identity populated. -/
def bareObject (reqName reqNs : String) : ObjectState :=
  { name := reqName, ns := reqNs, generation := 0, labels := [],
    annotations := [], finalizers := [], conditions := [],
    deletionTimestamp := 0 }

/-- What a component's reconcile-step does, as observed through the per-cycle
context it is handed: it may rewrite the working copy's label and annotation
maps, stage conditions through the condition buffer (`ctx.Conditions`), and
it returns a `ctrl.Result` and an error. (Components are modelled as acting
through these documented channels of spec sections 4.2 and 5; in particular
they do not touch the finalizer list or the condition list directly.) -/
structure StepOut where
  newLabels : List (String × String)
  newAnnotations : List (String × String)
  staged : List Condition
  res : GoResult
  err : Option String
deriving DecidableEq, Repr

/-- A finalize-step additionally reports `done`. -/
structure FinStepOut where
  newLabels : List (String × String)
  newAnnotations : List (String × String)
  staged : List Condition
  res : GoResult
  done : Bool
  err : Option String
deriving DecidableEq, Repr

/-- A registered component (`reconcilerComponent`): its name, its
reconcile-step, whether it implements `FinalizerComponent`
(`rc.finalizer != nil`), its finalize-step (unused when `hasFinalizer` is
false) and its derived finalizer name
(`path.Join(r.finalizerBaseName, rc.name)`, computed at build time). -/
structure RComponent where
  name : String
  reconcile : ObjectState → StepOut
  hasFinalizer : Bool
  finalize : ObjectState → FinStepOut
  finalizerName : String

/-- Apply a step's metadata writes to the working copy. -/
def applyMeta (obj : ObjectState) (newLabels newAnnotations : List (String × String)) :
    ObjectState :=
  { obj with labels := newLabels, annotations := newAnnotations }

/-- Stage a step's condition set-calls in the pending buffer, in call order
(each call is `conditionHelper.SetCondition`, defaulting the observed
generation to the working copy's generation). -/
def stageAll (generation : Int) (pending : List Condition)
    (staged : List Condition) : List Condition :=
  staged.foldl (SetCondition generation) pending

/-- The per-cycle dispatch state threaded through the component loop
(reconciler.go lines 238-274): the working copy, the condition buffer, the
accumulated `finalRes`, the collected errors `errs`, plus two traces used to
state properties — the names of the components whose reconcile- or
finalize-step was invoked, and the `res` value merged on each iteration. -/
structure DispatchState where
  obj : ObjectState
  pending : List Condition
  finalRes : GoResult
  errs : List String
  dispatched : List String
  compResults : List GoResult
deriving DecidableEq, Repr

/-- The result merge performed at the end of each loop iteration
(reconciler.go lines 264-269): OR the `Requeue` flag; adopt the component's
`RequeueAfter` when it is non-zero and either no delay was kept yet or the
kept delay is larger. -/
def mergeResult (finalRes res : GoResult) : GoResult :=
  let finalRes :=
    if res.requeue then { finalRes with requeue := true } else finalRes
  if res.requeueAfter ≠ 0
      ∧ (finalRes.requeueAfter = 0 ∨ finalRes.requeueAfter > res.requeueAfter) then
    { finalRes with requeueAfter := res.requeueAfter }
  else finalRes

/-- The branch of one loop iteration that picks and runs the component's
step (reconciler.go lines 244-261), before the flush and the merges:

* resource not marked for deletion: invoke the reconcile-step, then, when the
  component has a finalizer capability and its finalizer name is not present,
  add it (`controllerutil.AddFinalizer`);
* resource marked for deletion and the component's finalizer name present:
  invoke the finalize-step and, when it reports done, remove the finalizer
  name (`controllerutil.RemoveFinalizer` removes every occurrence);
* otherwise the component is skipped (`res` stays the zero result, no error).

Returns the updated working copy, the updated pending buffer, the step's
result and error, and the dispatch-trace entry (`[rc.name]` when a step was
invoked, `[]` when the component was skipped). -/
def stepOutcome (st : DispatchState) (rc : RComponent) :
    ObjectState × List Condition × GoResult × Option String × List String :=
  if st.obj.deletionTimestamp = 0 then
      let out := rc.reconcile st.obj
      let obj := applyMeta st.obj out.newLabels out.newAnnotations
      let pending := stageAll st.obj.generation st.pending out.staged
      let obj :=
        if rc.hasFinalizer ∧ rc.finalizerName ∉ obj.finalizers then
          { obj with finalizers := obj.finalizers ++ [rc.finalizerName] }
        else obj
      (obj, pending, out.res, out.err, [rc.name])
    else if rc.hasFinalizer ∧ rc.finalizerName ∈ st.obj.finalizers then
      let out := rc.finalize st.obj
      let obj := applyMeta st.obj out.newLabels out.newAnnotations
      let pending := stageAll st.obj.generation st.pending out.staged
      let obj :=
        if out.done then
          { obj with
            finalizers := obj.finalizers.filter (fun f => f ≠ rc.finalizerName) }
        else obj
      (obj, pending, out.res, out.err, [rc.name])
    else
      (st.obj, st.pending, zeroResult, none, [])

/-- One full iteration of the component loop (reconciler.go lines 238-274):
run `stepOutcome`, then `ctx.Conditions.Flush()`, then merge the result into
`finalRes` (`mergeResult`) and append a non-nil error to `errs`. -/
def dispatchStep (hasConditions : Bool) (now : Nat) (st : DispatchState)
    (rc : RComponent) : DispatchState :=
  let step := stepOutcome st rc
  let obj := step.1
  let pending := step.2.1
  let res := step.2.2.1
  let err := step.2.2.2.1
  let names := step.2.2.2.2
  let flushed := FlushPending hasConditions now pending obj.conditions
  let obj := { obj with conditions := flushed.1 }
  { obj := obj, pending := flushed.2, finalRes := mergeResult st.finalRes res,
    errs := st.errs ++ (match err with | some e => [e] | none => []),
    dispatched := st.dispatched ++ names,
    compResults := st.compResults ++ [res] }

/-- The outcome of `client.Get`: the object, not-found, or another error. -/
inductive FetchResult where
  | found (obj : ObjectState)
  | notFound
  | otherError (e : String)
deriving DecidableEq, Repr

/-- The error returned by `Reconcile`: a fatal fetch error, a wrapped
metadata- or status-patch error, or the aggregate of the collected component
errors (`utilerrors.NewAggregate`, which is nil on an empty list — an
aggregate is only ever built from a non-empty one). -/
inductive CycleError where
  | fetchError (e : String)
  | metaPatchError (e : String)
  | statusPatchError (e : String)
  | aggregate (es : List String)
deriving DecidableEq, Repr

/-- `utilerrors.NewAggregate(errs)`: nil when no error was collected. -/
def aggregateErrs (errs : List String) : Option CycleError :=
  match errs with
  | [] => none
  | es => some (CycleError.aggregate es)

/-- The fields copied into `currentMeta` / `cleanMeta` for the metadata patch
(reconciler.go lines 278-290): name, namespace, labels, annotations and
finalizers. -/
structure MetaView where
  name : String
  ns : String
  labels : List (String × String)
  annotationMap : List (String × String)
  finalizers : List String
deriving DecidableEq, Repr

def metaView (obj : ObjectState) : MetaView :=
  { name := obj.name, ns := obj.ns, labels := obj.labels,
    annotationMap := obj.annotations, finalizers := obj.finalizers }

/-- One patch call issued to the resource store: the object sent, the
baseline it is diffed against (`client.MergeFrom`), and the field owner
(`client.PatchOptions.FieldManager`). -/
structure PatchCall (α : Type) where
  current : α
  base : α
  fieldOwner : String
deriving DecidableEq, Repr

/-- The inputs of one `Reconcile` invocation: the mode chosen at construction
(`abortNotFound`, default true; `ReconcileNotFound()` sets it false), the
engine name (`r.name`, the field owner of the patches), the request identity,
whether the resource type exposes a condition list (the
`obj.(ConditionObject)` assertion), the component list, the outcome the store
returns for the fetch and for each of the two patches, and the cycle's
clock value used for last transition times. -/
structure CycleInput where
  abortNotFound : Bool
  engineName : String
  reqName : String
  reqNs : String
  hasConditions : Bool
  components : List RComponent
  fetch : FetchResult
  metaPatchErr : Option String
  statusPatchErr : Option String
  now : Nat

/-- Everything observable about one `Reconcile` invocation: the returned
`ctrl.Result` and error, the working copy and the clean snapshot (when a
fetch produced them), the dispatch traces, and the two patch calls made to
the store (`none` = that patch was never attempted). -/
structure CycleOutput where
  result : GoResult
  err : Option CycleError
  obj : Option ObjectState
  cleanObj : Option ObjectState
  dispatched : List String
  compErrs : List String
  compResults : List GoResult
  metaCall : Option (PatchCall MetaView)
  statusCall : Option (PatchCall ObjectState)
deriving Repr

/-- The output of a cycle that ended before dispatching anything. -/
def emptyOutput : CycleOutput :=
  { result := zeroResult, err := none, obj := none, cleanObj := none,
    dispatched := [], compErrs := [], compResults := [],
    metaCall := none, statusCall := none }

/-- The component loop followed by the persistence step (reconciler.go lines
236-306): run every component in registration order, then — only when the
engine is in tolerant mode (`!r.abortNotFound`) — patch metadata first and
status second, each diffed against the clean snapshot and attributed to the
engine name; a metadata patch error returns immediately (before the status
patch) as the cycle's sole error, a status patch error likewise supersedes
the component errors; otherwise the aggregate of the component errors is
returned with the merged result. -/
def initDispatch (obj : ObjectState) : DispatchState :=
  { obj := obj, pending := [], finalRes := zeroResult, errs := [],
    dispatched := [], compResults := [] }

/-- The component loop (reconciler.go lines 236-274): fold `dispatchStep`
over the registered components in registration order, starting from the
freshly fetched working copy, an empty condition buffer, a zero result and
no errors. -/
def loopState (inp : CycleInput) (obj : ObjectState) : DispatchState :=
  inp.components.foldl (dispatchStep inp.hasConditions inp.now)
    (initDispatch obj)

def runCycle (inp : CycleInput) (obj cleanObj : ObjectState) : CycleOutput :=
  let st := loopState inp obj
  if inp.abortNotFound then
    { result := st.finalRes, err := aggregateErrs st.errs, obj := some st.obj,
      cleanObj := some cleanObj, dispatched := st.dispatched,
      compErrs := st.errs, compResults := st.compResults,
      metaCall := none, statusCall := none }
  else
    let metaCall : PatchCall MetaView :=
      { current := metaView st.obj, base := metaView cleanObj,
        fieldOwner := inp.engineName }
    match inp.metaPatchErr with
    | some e =>
        { result := zeroResult, err := some (CycleError.metaPatchError e),
          obj := some st.obj, cleanObj := some cleanObj,
          dispatched := st.dispatched, compErrs := st.errs,
          compResults := st.compResults, metaCall := some metaCall,
          statusCall := none }
    | none =>
        let statusCall : PatchCall ObjectState :=
          { current := st.obj, base := cleanObj, fieldOwner := inp.engineName }
        match inp.statusPatchErr with
        | some e =>
            { result := zeroResult,
              err := some (CycleError.statusPatchError e),
              obj := some st.obj, cleanObj := some cleanObj,
              dispatched := st.dispatched, compErrs := st.errs,
              compResults := st.compResults, metaCall := some metaCall,
              statusCall := some statusCall }
        | none =>
            { result := st.finalRes, err := aggregateErrs st.errs,
              obj := some st.obj, cleanObj := some cleanObj,
              dispatched := st.dispatched, compErrs := st.errs,
              compResults := st.compResults, metaCall := some metaCall,
              statusCall := some statusCall }

/-- The clean snapshot and the skip-check (reconciler.go lines 213-219): the
snapshot is taken right after the fetch; then, when the skip-reconcile
annotation is present with the exact value "true", the cycle ends with no
work and no error. -/
def afterFetch (inp : CycleInput) (obj : ObjectState) : CycleOutput :=
  let cleanObj := obj
  if lookupStr obj.annotations SkipReconcileAnnotation = some "true" then
    { emptyOutput with obj := some obj, cleanObj := some cleanObj }
  else
    runCycle inp obj cleanObj

/-- Embedding of `Reconciler.Reconcile` (reconciler.go lines 191-306): fetch
the resource; a non-not-found fetch error aborts the cycle and is returned;
not-found either ends the cycle silently (abort mode) or substitutes a bare
resource with only the request identity populated (tolerant mode); then the
snapshot, the skip-check, the component loop and the persistence step run. -/
def Reconcile (inp : CycleInput) : CycleOutput :=
  match inp.fetch with
  | FetchResult.otherError e =>
      { emptyOutput with err := some (CycleError.fetchError e) }
  | FetchResult.notFound =>
      if inp.abortNotFound then emptyOutput
      else afterFetch inp (bareObject inp.reqName inp.reqNs)
  | FetchResult.found obj => afterFetch inp obj

/-! ## Spec-side definitions and example inputs -/

/-- Cut a step result's error, keeping everything else it does. Used to state
that component errors never influence which components get dispatched. -/
def eraseStepErr (out : StepOut) : StepOut := { out with err := none }

def eraseFinErr (out : FinStepOut) : FinStepOut := { out with err := none }

/-- The same component with its errors suppressed. -/
def eraseErrors (rc : RComponent) : RComponent :=
  { rc with
    reconcile := fun o => eraseStepErr (rc.reconcile o)
    finalize := fun o => eraseFinErr (rc.finalize o) }

/-- Modelled from the spec's words ("the minimum over all non-zero delays
requested by components ... zero when no component requested a non-zero
delay"): the minimum of the non-zero entries of a list, `0` when there are
none. Stated independently of the engine's fold so the fold can be compared
with it. -/
def minOrZero : List Int → Int
  | [] => 0
  | x :: xs => xs.foldl min x

def specMinNonZero (l : List Int) : Int :=
  minOrZero (l.filter (fun d => d != 0))

/-- A component that stages nothing, keeps the metadata it sees, requests the
given result and fails with the given error. -/
def plainComp (nm : String) (res : GoResult) (err : Option String) : RComponent :=
  { name := nm
    reconcile := fun o =>
      { newLabels := o.labels, newAnnotations := o.annotations, staged := [],
        res := res, err := err }
    hasFinalizer := false
    finalize := fun o =>
      { newLabels := o.labels, newAnnotations := o.annotations, staged := [],
        res := res, done := false, err := err }
    finalizerName := "" }

/-- A finalizer-capable component whose reconcile- and finalize-step both
fail, and whose finalize-step reports not done. -/
def exFinComp : RComponent :=
  { name := "storage"
    reconcile := fun o =>
      { newLabels := o.labels, newAnnotations := o.annotations, staged := [],
        res := zeroResult, err := some "reconcile boom" }
    hasFinalizer := true
    finalize := fun o =>
      { newLabels := o.labels, newAnnotations := o.annotations, staged := [],
        res := zeroResult, done := false, err := some "finalize boom" }
    finalizerName := "test-controller.example.com/storage" }

/-- A resource marked for deletion carrying `exFinComp`'s finalizer. -/
def exDelObj : ObjectState :=
  { name := "a", ns := "b", generation := 1, labels := [], annotations := [],
    finalizers := ["test-controller.example.com/storage"], conditions := [],
    deletionTimestamp := 5 }

/-- A live resource without finalizers. -/
def exLiveObj : ObjectState :=
  { name := "a", ns := "b", generation := 1, labels := [], annotations := [],
    finalizers := [], conditions := [], deletionTimestamp := 0 }

def exDelState : DispatchState :=
  { obj := exDelObj, pending := [], finalRes := zeroResult, errs := [],
    dispatched := [], compResults := [] }

def exLiveState : DispatchState :=
  { obj := exLiveObj, pending := [], finalRes := zeroResult, errs := [],
    dispatched := [], compResults := [] }

/-- A concrete cycle input: tolerant mode, one erring component, a failing
metadata patch. -/
def exInpMetaFail : CycleInput :=
  { abortNotFound := false, engineName := "testctl", reqName := "a",
    reqNs := "b", hasConditions := true,
    components := [plainComp "one" zeroResult (some "boom")],
    fetch := FetchResult.found exLiveObj, metaPatchErr := some "patch denied",
    statusPatchErr := none, now := 7 }

/-- A concrete cycle input: abort mode, resource not found. -/
def exInpNotFound : CycleInput :=
  { abortNotFound := true, engineName := "testctl", reqName := "a",
    reqNs := "b", hasConditions := true,
    components := [plainComp "one" zeroResult none],
    fetch := FetchResult.notFound, metaPatchErr := none,
    statusPatchErr := none, now := 7 }

/-- A concrete cycle input: abort mode, two components, one erring, with
requested requeue delays 9 and 4. -/
def exInpTwoComps : CycleInput :=
  { abortNotFound := true, engineName := "testctl", reqName := "a",
    reqNs := "b", hasConditions := true,
    components :=
      [plainComp "one" { requeue := false, requeueAfter := 9 } (some "boom"),
       plainComp "two" { requeue := true, requeueAfter := 4 } none],
    fetch := FetchResult.found exLiveObj, metaPatchErr := none,
    statusPatchErr := none, now := 7 }

/-- The skip-marked variant of `exLiveObj`. -/
def exSkipObj : ObjectState :=
  { exLiveObj with
    annotations := [( SkipReconcileAnnotation, "true")] }

/-- A concrete cycle input fetching the skip-marked resource. -/
def exInpSkip : CycleInput :=
  { exInpTwoComps with fetch := FetchResult.found exSkipObj }

/-- A finalizer-less component that writes a label. -/
def labelComp : RComponent :=
  { name := "labeler"
    reconcile := fun o =>
      { newLabels := [("touched", "yes")], newAnnotations := o.annotations,
        staged := [], res := zeroResult, err := none }
    hasFinalizer := false
    finalize := fun o =>
      { newLabels := o.labels, newAnnotations := o.annotations, staged := [],
        res := zeroResult, done := false, err := none }
    finalizerName := "" }

/-- A concrete cycle input: abort mode, only the label-writing component. -/
def exInpLabel : CycleInput :=
  { exInpTwoComps with components := [labelComp] }

/-- `exLiveObj` after `labelComp` ran. -/
def exLabeledObj : ObjectState :=
  { exLiveObj with labels := [("touched", "yes")] }

/-- A concrete cycle input: tolerant mode, one component requesting an
immediate requeue and a delay of 5, and a failing metadata patch. -/
def exInpPatchFailDelay : CycleInput :=
  { abortNotFound := false, engineName := "testctl", reqName := "a",
    reqNs := "b", hasConditions := true,
    components := [plainComp "one" { requeue := true, requeueAfter := 5 } none],
    fetch := FetchResult.found exLiveObj, metaPatchErr := some "patch denied",
    statusPatchErr := none, now := 7 }

/-! ## Theorems about the condition buffer / merge algorithm -/

/-- C1: the claim says that flushing a staged condition whose type already
occurs in the condition list updates that list entry in place (replacing
status, bumping the last transition time on a status change, and always
overwriting reason and message). The code does not: `FindStatusCondition`
returns a pointer to the `range` loop's copy of the entry, so the merge
writes of `SetStatusCondition` land in that copy and the list is returned
unchanged. Concretely, merging `Ready=True,reason=Done,message=done` (at
`now = 7`) into a list holding `Ready=False,reason=Old,message=old` leaves
the list exactly as it was, even though a matching entry exists, the staged
status differs, and the writes the code performs on the detached copy are
precisely the update the claim describes. -/
theorem setStatusCondition_merge_never_updates_list :
    SetStatusCondition 7 [readyOld] readyNew = [readyOld]
    ∧ FindStatusCondition [readyOld] readyNew.type = some readyOld
    ∧ readyOld.status ≠ readyNew.status
    ∧ mergeWrites readyOld 7 readyNew =
        { type := "Ready", status := "True", reason := "Done",
          message := "done", observedGeneration := 1,
          lastTransitionTime := 7 } := by
  refine ⟨rfl, rfl, ?_, rfl⟩
  decide

/-- C3: the claim says that after `set` calls for type T followed by one
`flush`, the condition list contains exactly one condition of type T equal to
the last `set` call's values. Because of the copy bug in
`FindStatusCondition` (see C1), this fails whenever a condition of type T is
already present: staging `Ready=True,reason=Done,message=done` on a resource
of generation 3 whose list holds `Ready=False,reason=Old,message=old` and
flushing (at `now = 7`) leaves the list unchanged — the single `Ready` entry
still has status `False` and reason `Old`, not the last staged values. The
buffer is cleared, and the staged condition did have its observed generation
defaulted to the resource's generation, so only the in-place update is what
fails. -/
theorem flush_onto_existing_type_keeps_old_values :
    (FlushPending true 7 (helperSet 3 [] "Ready" "True" "Done" "done")
        [readyOld]).1 = [readyOld]
    ∧ (FlushPending true 7 (helperSet 3 [] "Ready" "True" "Done" "done")
        [readyOld]).2 = []
    ∧ helperSet 3 [] "Ready" "True" "Done" "done" =
        [{ type := "Ready", status := "True", reason := "Done",
           message := "done", observedGeneration := 3,
           lastTransitionTime := 0 }]
    ∧ readyOld.status ≠ "True" ∧ readyOld.reason ≠ "Done" := by
  refine ⟨rfl, rfl, rfl, ?_, ?_⟩ <;> decide

/-! ## Theorems about the cycle orchestrator -/

/-- C5: not-found fetches end the cycle silently in abort-on-not-found mode
(no error, no requeue, no patch call — `emptyOutput`); in tolerant mode the
cycle proceeds exactly as if the fetch had returned a bare resource with
only the request's name and namespace populated; every other fetch error
aborts the cycle and is returned as the cycle error. -/
theorem reconcile_fetch_modes (inp : CycleInput) :
    (inp.fetch = FetchResult.notFound → inp.abortNotFound = true →
      Reconcile inp = emptyOutput)
    ∧ (inp.fetch = FetchResult.notFound → inp.abortNotFound = false →
      Reconcile inp =
        Reconcile
          { inp with
            fetch := FetchResult.found (bareObject inp.reqName inp.reqNs) })
    ∧ (∀ e, inp.fetch = FetchResult.otherError e →
      Reconcile inp = { emptyOutput with err := some (CycleError.fetchError e) }) := by
  obtain ⟨ab, en, rn, rns, hc, comps, f, mpe, spe, n⟩ := inp
  refine ⟨?_, ?_, ?_⟩
  · rintro rfl rfl
    rfl
  · rintro rfl rfl
    rfl
  · rintro e rfl
    rfl

/-- C5 witness: abort mode and a not-found fetch give the silent exit. -/
theorem reconcile_fetch_modes_witness :
    Reconcile exInpNotFound = emptyOutput :=
  (reconcile_fetch_modes exInpNotFound).1 rfl rfl

/-- C9: when the fetched resource carries the skip-reconcile annotation with
the literal value "true", the cycle ends right after the snapshot — nothing
is dispatched, no patch call is made, no error and no requeue are returned;
with any other value the cycle proceeds to the component loop and the
persistence step (`runCycle`). -/
theorem reconcile_skip_marker (inp : CycleInput) :
    (∀ obj, inp.fetch = FetchResult.found obj →
      lookupStr obj.annotations SkipReconcileAnnotation = some "true" →
      Reconcile inp = { emptyOutput with obj := some obj, cleanObj := some obj })
    ∧ (∀ obj, inp.fetch = FetchResult.found obj →
      lookupStr obj.annotations SkipReconcileAnnotation ≠ some "true" →
      Reconcile inp = runCycle inp obj obj) := by
  obtain ⟨ab, en, rn, rns, hc, comps, f, mpe, spe, n⟩ := inp
  constructor
  · rintro obj rfl hskip
    simp only [Reconcile, afterFetch, hskip, if_true]
  · rintro obj rfl hskip
    simp only [Reconcile, afterFetch, if_neg hskip]

/-- C9 witness: a resource annotated for skipping is not reconciled — the
cycle output is the silent exit with the snapshots recorded. -/
theorem reconcile_skip_marker_witness :
    Reconcile exInpSkip =
      { emptyOutput with obj := some exSkipObj, cleanObj := some exSkipObj } :=
  (reconcile_skip_marker exInpSkip).1 exSkipObj rfl (by decide)

/-- Persistence behaviour of the post-loop section of `runCycle`: no patch
call in abort mode; in tolerant mode the metadata patch diffs the working
copy's metadata view against the clean snapshot's under the engine's name,
the status patch does the same for the full objects and is only made when
the metadata patch succeeded, and a metadata patch error becomes the sole
cycle error with a zero result. -/
theorem runCycle_persistence (inp : CycleInput) (obj cleanObj : ObjectState) :
    (inp.abortNotFound = true →
      (runCycle inp obj cleanObj).metaCall = none
      ∧ (runCycle inp obj cleanObj).statusCall = none)
    ∧ (∀ pc, (runCycle inp obj cleanObj).metaCall = some pc →
      inp.abortNotFound = false
      ∧ ∃ o c, (runCycle inp obj cleanObj).obj = some o
        ∧ (runCycle inp obj cleanObj).cleanObj = some c
        ∧ pc = { current := metaView o, base := metaView c,
                 fieldOwner := inp.engineName })
    ∧ (∀ sc, (runCycle inp obj cleanObj).statusCall = some sc →
      inp.metaPatchErr = none
      ∧ ((runCycle inp obj cleanObj).metaCall).isSome = true
      ∧ ∃ o c, (runCycle inp obj cleanObj).obj = some o
        ∧ (runCycle inp obj cleanObj).cleanObj = some c
        ∧ sc = { current := o, base := c, fieldOwner := inp.engineName })
    ∧ (inp.abortNotFound = false → ∀ e, inp.metaPatchErr = some e →
      (runCycle inp obj cleanObj).statusCall = none
      ∧ (runCycle inp obj cleanObj).err = some (CycleError.metaPatchError e)
      ∧ (runCycle inp obj cleanObj).result = zeroResult) := by
  cases hab : inp.abortNotFound <;> cases hm : inp.metaPatchErr <;>
    cases hs : inp.statusPatchErr <;>
    simp [runCycle, hab, hm, hs]

/-- C2: persistence runs only in tolerant mode. There the metadata patch is
applied first — diffing the working copy's name/namespace/labels/annotations/
finalizers view against the clean snapshot's, attributed to the engine name —
and the status patch second, diffing the full working copy against the clean
snapshot under the same owner; a metadata patch error means the status patch
is never attempted and that error is returned as the sole cycle error
(superseding any collected component errors) with a zero result. In
abort-on-not-found mode no patch call is ever made, even for a fetched and
mutated resource. -/
theorem reconcile_persistence (inp : CycleInput) :
    (inp.abortNotFound = true →
      (Reconcile inp).metaCall = none ∧ (Reconcile inp).statusCall = none)
    ∧ (∀ pc, (Reconcile inp).metaCall = some pc →
      inp.abortNotFound = false
      ∧ ∃ o c, (Reconcile inp).obj = some o ∧ (Reconcile inp).cleanObj = some c
        ∧ pc = { current := metaView o, base := metaView c,
                 fieldOwner := inp.engineName })
    ∧ (∀ sc, (Reconcile inp).statusCall = some sc →
      inp.metaPatchErr = none ∧ ((Reconcile inp).metaCall).isSome = true
      ∧ ∃ o c, (Reconcile inp).obj = some o ∧ (Reconcile inp).cleanObj = some c
        ∧ sc = { current := o, base := c, fieldOwner := inp.engineName })
    ∧ (∀ e, inp.metaPatchErr = some e →
      ((Reconcile inp).metaCall).isSome = true →
      (Reconcile inp).statusCall = none
      ∧ (Reconcile inp).err = some (CycleError.metaPatchError e)
      ∧ (Reconcile inp).result = zeroResult) := by
  have hrun : ∀ o, Reconcile inp = runCycle inp o o →
      (inp.abortNotFound = true →
        (Reconcile inp).metaCall = none ∧ (Reconcile inp).statusCall = none)
      ∧ (∀ pc, (Reconcile inp).metaCall = some pc →
        inp.abortNotFound = false
        ∧ ∃ o c, (Reconcile inp).obj = some o ∧ (Reconcile inp).cleanObj = some c
          ∧ pc = { current := metaView o, base := metaView c,
                   fieldOwner := inp.engineName })
      ∧ (∀ sc, (Reconcile inp).statusCall = some sc →
        inp.metaPatchErr = none ∧ ((Reconcile inp).metaCall).isSome = true
        ∧ ∃ o c, (Reconcile inp).obj = some o ∧ (Reconcile inp).cleanObj = some c
          ∧ sc = { current := o, base := c, fieldOwner := inp.engineName })
      ∧ (∀ e, inp.metaPatchErr = some e →
        ((Reconcile inp).metaCall).isSome = true →
        (Reconcile inp).statusCall = none
        ∧ (Reconcile inp).err = some (CycleError.metaPatchError e)
        ∧ (Reconcile inp).result = zeroResult) := by
    intro o ho
    have h := runCycle_persistence inp o o
    rw [ho]
    refine ⟨h.1, h.2.1, h.2.2.1, ?_⟩
    intro e he hsome
    have hab : inp.abortNotFound = false := by
      cases hmc : (runCycle inp o o).metaCall with
      | none => rw [hmc] at hsome; cases hsome
      | some pc => exact (h.2.1 pc hmc).1
    exact h.2.2.2 hab e he
  have hnone : Reconcile inp = emptyOutput
      ∨ (∃ e, Reconcile inp = { emptyOutput with err := some (CycleError.fetchError e) })
      ∨ (∃ o, Reconcile inp = { emptyOutput with obj := some o, cleanObj := some o })
      ∨ (∃ o, Reconcile inp = runCycle inp o o) := by
    obtain ⟨ab, en, rn, rns, hc, comps, f, mpe, spe, n⟩ := inp
    cases f with
    | otherError e => exact Or.inr (Or.inl ⟨e, rfl⟩)
    | notFound =>
        cases ab with
        | true => exact Or.inl rfl
        | false =>
            by_cases hskip :
                lookupStr (bareObject rn rns).annotations
                  SkipReconcileAnnotation = some "true"
            · exact Or.inr (Or.inr (Or.inl ⟨bareObject rn rns, by
                simp [Reconcile, afterFetch, hskip]⟩))
            · exact Or.inr (Or.inr (Or.inr ⟨bareObject rn rns, by
                simp [Reconcile, afterFetch, hskip]⟩))
    | found o =>
        by_cases hskip :
            lookupStr o.annotations SkipReconcileAnnotation = some "true"
        · exact Or.inr (Or.inr (Or.inl ⟨o, by
            simp [Reconcile, afterFetch, hskip]⟩))
        · exact Or.inr (Or.inr (Or.inr ⟨o, by
            simp [Reconcile, afterFetch, hskip]⟩))
  rcases hnone with h | ⟨e, h⟩ | ⟨o, h⟩ | ⟨o, h⟩
  · rw [h]
    refine ⟨fun _ => ⟨rfl, rfl⟩, ?_, ?_, ?_⟩
    · intro pc hpc; cases hpc
    · intro sc hsc; cases hsc
    · intro e _ hsome; cases hsome
  · rw [h]
    refine ⟨fun _ => ⟨rfl, rfl⟩, ?_, ?_, ?_⟩
    · intro pc hpc; cases hpc
    · intro sc hsc; cases hsc
    · intro e2 _ hsome; cases hsome
  · rw [h]
    refine ⟨fun _ => ⟨rfl, rfl⟩, ?_, ?_, ?_⟩
    · intro pc hpc; cases hpc
    · intro sc hsc; cases hsc
    · intro e _ hsome; cases hsome
  · exact hrun o h

/-- C2 witness: a tolerant-mode cycle whose metadata patch fails makes no
status patch call and returns the metadata patch error as the sole cycle
error — the component's own error is superseded. -/
theorem reconcile_persistence_witness :
    (Reconcile exInpMetaFail).statusCall = none
    ∧ (Reconcile exInpMetaFail).err =
        some (CycleError.metaPatchError "patch denied")
    ∧ (Reconcile exInpMetaFail).result = zeroResult
    ∧ (Reconcile exInpMetaFail).compErrs = ["boom"] := by
  have h :=
    (reconcile_persistence exInpMetaFail).2.2.2 "patch denied" rfl (by decide)
  exact ⟨h.1, h.2.1, h.2.2, by decide⟩

/-- C4: for a resource marked for deletion, a component's finalize-step is
invoked only when the component has finalizer capability and its finalizer
name is in the resource's finalizer set — otherwise the component is skipped
(nothing dispatched, finalizer set untouched). When it is invoked, the
finalizer name stays in the set exactly when the finalize-step reported
`done = false`; no assumption is made about the step's error, so the
finalizer also remains when the step failed. -/
theorem dispatchStep_finalize_semantics (hc : Bool) (now : Nat)
    (st : DispatchState) (rc : RComponent)
    (hdel : st.obj.deletionTimestamp ≠ 0) :
    (¬(rc.hasFinalizer = true ∧ rc.finalizerName ∈ st.obj.finalizers) →
      (dispatchStep hc now st rc).dispatched = st.dispatched
      ∧ (dispatchStep hc now st rc).obj.finalizers = st.obj.finalizers)
    ∧ (rc.hasFinalizer = true → rc.finalizerName ∈ st.obj.finalizers →
      (dispatchStep hc now st rc).dispatched = st.dispatched ++ [rc.name]
      ∧ (rc.finalizerName ∈ (dispatchStep hc now st rc).obj.finalizers
          ↔ (rc.finalize st.obj).done = false)) := by
  constructor
  · intro hno
    simp [dispatchStep, stepOutcome, hdel, hno, applyMeta]
  · intro hfin hmem
    have hyes : rc.hasFinalizer = true ∧ rc.finalizerName ∈ st.obj.finalizers :=
      ⟨hfin, hmem⟩
    cases hdone : (rc.finalize st.obj).done with
    | true =>
        simp [dispatchStep, stepOutcome, hdel, hyes, hdone, applyMeta,
          List.mem_filter]
    | false =>
        simp [dispatchStep, stepOutcome, hdel, hyes, hdone, applyMeta, hmem]

/-- C4 witness: a deleted resource carrying the component's finalizer, whose
finalize-step fails and reports not done — the step is dispatched, and the
finalizer name is still present afterwards. -/
theorem dispatchStep_finalize_semantics_witness :
    exDelObj.deletionTimestamp ≠ 0
    ∧ (exFinComp.finalize exDelObj).err = some "finalize boom"
    ∧ (exFinComp.finalize exDelObj).done = false
    ∧ (dispatchStep true 7 exDelState exFinComp).dispatched = [] ++ ["storage"]
    ∧ "test-controller.example.com/storage"
        ∈ (dispatchStep true 7 exDelState exFinComp).obj.finalizers := by
  have h := dispatchStep_finalize_semantics true 7 exDelState exFinComp
    (by decide)
  have h2 := h.2 rfl (by decide)
  exact ⟨by decide, rfl, rfl, h2.1, h2.2.mpr rfl⟩

/-- C10: during a non-deletion cycle, a finalizer-capable component whose
finalizer name is absent gets that name added right after its reconcile-step
returns — with no assumption about the step's error, so also when the step
failed. -/
theorem dispatchStep_registers_finalizer (hc : Bool) (now : Nat)
    (st : DispatchState) (rc : RComponent)
    (hdel : st.obj.deletionTimestamp = 0)
    (hfin : rc.hasFinalizer = true)
    (habs : rc.finalizerName ∉ st.obj.finalizers) :
    rc.finalizerName ∈ (dispatchStep hc now st rc).obj.finalizers
    ∧ (dispatchStep hc now st rc).dispatched = st.dispatched ++ [rc.name] := by
  have hyes : rc.hasFinalizer = true
      ∧ rc.finalizerName ∉ (applyMeta st.obj (rc.reconcile st.obj).newLabels
          (rc.reconcile st.obj).newAnnotations).finalizers := ⟨hfin, habs⟩
  simp [dispatchStep, stepOutcome, hdel, applyMeta] at hyes ⊢
  simp [hyes]

/-- C10 witness: a live resource without the finalizer and a component whose
reconcile-step fails — the finalizer name is added anyway. -/
theorem dispatchStep_registers_finalizer_witness :
    (exFinComp.reconcile exLiveObj).err = some "reconcile boom"
    ∧ "test-controller.example.com/storage"
        ∈ (dispatchStep true 7 exLiveState exFinComp).obj.finalizers
    ∧ (dispatchStep true 7 exLiveState exFinComp).dispatched
        = [] ++ ["storage"] := by
  have h := dispatchStep_registers_finalizer true 7 exLiveState exFinComp
    rfl rfl (by decide)
  exact ⟨rfl, h.1, h.2⟩

/-- A loop iteration for a component without finalizer capability leaves the
working copy's finalizer list untouched. -/
theorem dispatchStep_keeps_finalizers (hc : Bool) (now : Nat)
    (st : DispatchState) (rc : RComponent) (h : rc.hasFinalizer = false) :
    (dispatchStep hc now st rc).obj.finalizers = st.obj.finalizers := by
  by_cases hdel : st.obj.deletionTimestamp = 0 <;>
    simp [dispatchStep, stepOutcome, hdel, h, applyMeta]

/-- The whole component loop keeps the finalizer list when no component has
finalizer capability. -/
theorem dispatchLoop_keeps_finalizers (hc : Bool) (now : Nat)
    (comps : List RComponent) (st : DispatchState)
    (h : ∀ rc ∈ comps, rc.hasFinalizer = false) :
    (comps.foldl (dispatchStep hc now) st).obj.finalizers
      = st.obj.finalizers := by
  induction comps generalizing st with
  | nil => rfl
  | cons rc tl ih =>
      simp only [List.foldl_cons]
      rw [ih (dispatchStep hc now st rc)
        (fun x hx => h x (List.mem_cons_of_mem _ hx))]
      exact dispatchStep_keeps_finalizers hc now st rc
        (h rc (List.mem_cons_self _ _))

/-- The working copy a cycle ends with is the component loop's. -/
theorem runCycle_obj (inp : CycleInput) (obj cleanObj : ObjectState) :
    (runCycle inp obj cleanObj).obj = some (loopState inp obj).obj := by
  cases hab : inp.abortNotFound <;> cases hm : inp.metaPatchErr <;>
    cases hs : inp.statusPatchErr <;> simp [runCycle, hab, hm, hs]

/-- Post-fetch part of C8: with no finalizer-capable component, the cycle's
final working copy keeps the fetched finalizer list. -/
theorem afterFetch_keeps_finalizers (inp : CycleInput) (obj : ObjectState)
    (h : ∀ rc ∈ inp.components, rc.hasFinalizer = false) :
    ∀ o, (afterFetch inp obj).obj = some o → o.finalizers = obj.finalizers := by
  intro o ho
  by_cases hskip :
      lookupStr obj.annotations SkipReconcileAnnotation = some "true"
  · simp only [afterFetch, hskip, if_true] at ho
    cases ho
    rfl
  · simp only [afterFetch, if_neg hskip, runCycle_obj] at ho
    cases ho
    exact dispatchLoop_keeps_finalizers inp.hasConditions inp.now
      inp.components (initDispatch obj) h

/-- C8: a cycle over a component list with no finalizer-capable components
never mutates the resource's finalizer set — the final working copy carries
exactly the fetched finalizer list (and the empty list when the resource was
reconstructed bare in tolerant mode). -/
theorem reconcile_no_finalizer_mutation (inp : CycleInput)
    (hnf : ∀ rc ∈ inp.components, rc.hasFinalizer = false) :
    (∀ o0 o, inp.fetch = FetchResult.found o0 → (Reconcile inp).obj = some o →
      o.finalizers = o0.finalizers)
    ∧ (∀ o, inp.fetch = FetchResult.notFound → (Reconcile inp).obj = some o →
      o.finalizers = []) := by
  constructor
  · intro o0 o hf ho
    have : Reconcile inp = afterFetch inp o0 := by
      simp [Reconcile, hf]
    rw [this] at ho
    exact afterFetch_keeps_finalizers inp o0 hnf o ho
  · intro o hf ho
    cases hab : inp.abortNotFound with
    | true =>
        have : Reconcile inp = emptyOutput := by
          simp [Reconcile, hf, hab]
        rw [this] at ho
        cases ho
    | false =>
        have : Reconcile inp = afterFetch inp (bareObject inp.reqName inp.reqNs) := by
          simp [Reconcile, hf, hab]
        rw [this] at ho
        exact afterFetch_keeps_finalizers inp _ hnf o ho

/-- C8 witness: a cycle with only the finalizer-less label-writing component
changes the labels but ends with the fetched (empty) finalizer list. -/
theorem reconcile_no_finalizer_mutation_witness :
    (Reconcile exInpLabel).obj = some exLabeledObj
    ∧ exLabeledObj.finalizers = exLiveObj.finalizers := by
  have hobj : (Reconcile exInpLabel).obj = some exLabeledObj := by decide
  refine ⟨hobj, ?_⟩
  exact (reconcile_no_finalizer_mutation exInpLabel (by
    intro rc hrc
    simp only [exInpLabel, exInpTwoComps, List.mem_singleton] at hrc
    rw [hrc]
    rfl)).1 exLiveObj exLabeledObj rfl hobj

/-- Running a component with its errors suppressed changes nothing but the
collected error list. -/
theorem stepOutcome_erase (st : DispatchState) (es : List String)
    (rc : RComponent) :
    stepOutcome { st with errs := es } (eraseErrors rc)
      = ((stepOutcome st rc).1, (stepOutcome st rc).2.1,
         (stepOutcome st rc).2.2.1, none, (stepOutcome st rc).2.2.2.2) := by
  by_cases h1 : st.obj.deletionTimestamp = 0
  · simp [stepOutcome, eraseErrors, eraseStepErr, h1]
  · by_cases h2 : rc.hasFinalizer = true ∧ rc.finalizerName ∈ st.obj.finalizers
    · simp [stepOutcome, eraseErrors, eraseFinErr, h1, h2]
    · simp [stepOutcome, eraseErrors, h1, h2]

/-- A loop iteration of the errors-suppressed component from a state with a
different collected-error list is the original iteration with that list. -/
theorem dispatchStep_erase (hc : Bool) (now : Nat) (st : DispatchState)
    (es : List String) (rc : RComponent) :
    dispatchStep hc now { st with errs := es } (eraseErrors rc)
      = { dispatchStep hc now st rc with errs := es } := by
  simp [dispatchStep, stepOutcome_erase]

/-- The whole loop over errors-suppressed components equals the original
loop with the collected-error list replaced: which components run, what they
do to the resource, and the merged result are independent of the errors. -/
theorem dispatchLoop_erase (hc : Bool) (now : Nat) (comps : List RComponent)
    (st : DispatchState) (es : List String) :
    (comps.map eraseErrors).foldl (dispatchStep hc now) { st with errs := es }
      = { comps.foldl (dispatchStep hc now) st with errs := es } := by
  induction comps generalizing st es with
  | nil => simp
  | cons rc tl ih =>
      simp only [List.map_cons, List.foldl_cons, dispatchStep_erase]
      exact ih (dispatchStep hc now st rc) es

/-- The dispatch trace and collected-error trace of a cycle are the loop's. -/
theorem runCycle_traces (inp : CycleInput) (obj cleanObj : ObjectState) :
    (runCycle inp obj cleanObj).dispatched = (loopState inp obj).dispatched
    ∧ (runCycle inp obj cleanObj).compErrs = (loopState inp obj).errs
    ∧ (runCycle inp obj cleanObj).compResults
        = (loopState inp obj).compResults := by
  cases hab : inp.abortNotFound <;> cases hm : inp.metaPatchErr <;>
    cases hs : inp.statusPatchErr <;> simp [runCycle, hab, hm, hs]

theorem aggregateErrs_eq_none (es : List String) :
    aggregateErrs es = none ↔ es = [] := by
  cases es <;> simp [aggregateErrs]

/-- When both patches succeed (or abort mode skips them), the cycle error is
the aggregate of the collected component errors. -/
theorem runCycle_err (inp : CycleInput) (obj cleanObj : ObjectState)
    (h : inp.abortNotFound = true
      ∨ (inp.metaPatchErr = none ∧ inp.statusPatchErr = none)) :
    (runCycle inp obj cleanObj).err
      = aggregateErrs (runCycle inp obj cleanObj).compErrs := by
  cases hab : inp.abortNotFound
  · rcases h with h | ⟨h1, h2⟩
    · rw [hab] at h; cases h
    · simp [runCycle, hab, h1, h2]
  · simp [runCycle, hab]

/-- Post-fetch part of C6: suppressing all component errors leaves the
dispatch trace unchanged (and collects no error). -/
theorem afterFetch_erase (inp : CycleInput) (obj : ObjectState) :
    (afterFetch { inp with components := inp.components.map eraseErrors }
        obj).dispatched
      = (afterFetch inp obj).dispatched
    ∧ (afterFetch { inp with components := inp.components.map eraseErrors }
        obj).compErrs = [] := by
  have hloop :
      loopState { inp with components := inp.components.map eraseErrors } obj
        = { loopState inp obj with errs := [] } := by
    have h := dispatchLoop_erase inp.hasConditions inp.now inp.components
      (initDispatch obj) []
    simpa [loopState, initDispatch] using h
  by_cases hskip :
      lookupStr obj.annotations SkipReconcileAnnotation = some "true"
  · simp [afterFetch, hskip, emptyOutput]
  · simp only [afterFetch, if_neg hskip]
    refine ⟨?_, ?_⟩
    · rw [(runCycle_traces _ obj obj).1, (runCycle_traces _ obj obj).1, hloop]
    · rw [(runCycle_traces _ obj obj).2.1, hloop]

/-- C6: an error from one component never prevents later components from
being dispatched — a cycle whose components all have their errors suppressed
dispatches exactly the same components (and collects no error); and whenever
the cycle reaches its end (the fetch did not fail hard and, in tolerant
mode, both patches succeeded), the returned error is the aggregate of all
collected component errors, nil exactly when no component erred. -/
theorem reconcile_error_isolation (inp : CycleInput) :
    ((Reconcile { inp with components := inp.components.map eraseErrors }).dispatched
        = (Reconcile inp).dispatched
      ∧ (Reconcile { inp with
          components := inp.components.map eraseErrors }).compErrs = [])
    ∧ ((inp.abortNotFound = true
        ∨ (inp.metaPatchErr = none ∧ inp.statusPatchErr = none)) →
      (∀ e, inp.fetch ≠ FetchResult.otherError e) →
      (Reconcile inp).err = aggregateErrs (Reconcile inp).compErrs
      ∧ ((Reconcile inp).err = none ↔ (Reconcile inp).compErrs = [])) := by
  obtain ⟨ab, en, rn, rns, hc, comps, f, mpe, spe, n⟩ := inp
  constructor
  · cases f with
    | otherError e => exact ⟨rfl, rfl⟩
    | notFound =>
        cases ab with
        | true => exact ⟨rfl, rfl⟩
        | false =>
            simpa [Reconcile] using
              afterFetch_erase
                ⟨false, en, rn, rns, hc, comps, FetchResult.notFound, mpe,
                  spe, n⟩ (bareObject rn rns)
    | found o =>
        simpa [Reconcile] using
          afterFetch_erase
            ⟨ab, en, rn, rns, hc, comps, FetchResult.found o, mpe, spe, n⟩ o
  · intro hdone hfetch
    have herr : ∀ obj : ObjectState,
        (afterFetch ⟨ab, en, rn, rns, hc, comps, f, mpe, spe, n⟩ obj).err
          = aggregateErrs
              (afterFetch ⟨ab, en, rn, rns, hc, comps, f, mpe, spe, n⟩ obj).compErrs
        := by
      intro obj
      by_cases hskip :
          lookupStr obj.annotations SkipReconcileAnnotation = some "true"
      · simp [afterFetch, hskip, emptyOutput, aggregateErrs]
      · simp only [afterFetch, if_neg hskip]
        exact runCycle_err _ obj obj hdone
    cases f with
    | otherError e => exact absurd rfl (hfetch e)
    | notFound =>
        cases ab with
        | true =>
            exact ⟨rfl, by simp [Reconcile, emptyOutput, aggregateErrs]⟩
        | false =>
            refine ⟨herr (bareObject rn rns), ?_⟩
            rw [show (Reconcile ⟨false, en, rn, rns, hc, comps,
                FetchResult.notFound, mpe, spe, n⟩).err
              = aggregateErrs (Reconcile ⟨false, en, rn, rns, hc, comps,
                FetchResult.notFound, mpe, spe, n⟩).compErrs
              from herr (bareObject rn rns)]
            exact aggregateErrs_eq_none _
    | found o =>
        refine ⟨herr o, ?_⟩
        rw [show (Reconcile ⟨ab, en, rn, rns, hc, comps,
            FetchResult.found o, mpe, spe, n⟩).err
          = aggregateErrs (Reconcile ⟨ab, en, rn, rns, hc, comps,
            FetchResult.found o, mpe, spe, n⟩).compErrs from herr o]
        exact aggregateErrs_eq_none _

/-- C6 witness: two components where the first errs — the second still runs
(same dispatch trace as with errors suppressed), and the cycle error is the
aggregate of exactly the collected errors. -/
theorem reconcile_error_isolation_witness :
    (Reconcile { exInpTwoComps with
        components := exInpTwoComps.components.map eraseErrors }).dispatched
      = (Reconcile exInpTwoComps).dispatched
    ∧ (Reconcile exInpTwoComps).err
      = aggregateErrs (Reconcile exInpTwoComps).compErrs
    ∧ (Reconcile exInpTwoComps).dispatched = ["one", "two"]
    ∧ (Reconcile exInpTwoComps).compErrs = ["boom"] := by
  refine ⟨(reconcile_error_isolation exInpTwoComps).1.1, ?_, by decide, by decide⟩
  exact ((reconcile_error_isolation exInpTwoComps).2 (Or.inl rfl)
    (fun e h => FetchResult.noConfusion h)).1

theorem foldl_min_mem (x : Int) (xs : List Int) : xs.foldl min x ∈ x :: xs := by
  induction xs generalizing x with
  | nil => simp
  | cons y ys ih =>
      simp only [List.foldl_cons]
      rcases List.mem_cons.mp (ih (min x y)) with h | h
      · rw [h]
        rcases min_choice x y with hm | hm <;> rw [hm] <;> simp
      · simp [h]

/-- Appending one delay to the trace updates the spec-side minimum exactly
the way the engine's fold condition does. -/
theorem specMinNonZero_append (l : List Int) (d : Int) :
    specMinNonZero (l ++ [d])
      = if d ≠ 0 ∧ (specMinNonZero l = 0 ∨ specMinNonZero l > d) then d
        else specMinNonZero l := by
  by_cases hd : d = 0
  · subst hd
    simp [specMinNonZero, List.filter_append]
  · have hfd : List.filter (fun x => x != 0) [d] = [d] := by simp [hd]
    cases hfl : List.filter (fun x => x != 0) l with
    | nil =>
        simp [specMinNonZero, minOrZero, List.filter_append, hfl, hfd, hd]
    | cons x xs =>
        have hmem : ∀ y ∈ x :: xs, y ≠ 0 := by
          intro y hy
          rw [← hfl] at hy
          simpa using List.of_mem_filter hy
        have hm : xs.foldl min x ≠ 0 := hmem _ (foldl_min_mem x xs)
        simp only [specMinNonZero, List.filter_append, hfl, hfd,
          List.cons_append, minOrZero]
        rw [List.foldl_append]
        simp only [List.foldl_cons, List.foldl_nil]
        rw [min_def]
        split_ifs <;> omega

theorem mergeResult_requeue (fr res : GoResult) :
    (mergeResult fr res).requeue = (fr.requeue || res.requeue) := by
  cases h : res.requeue <;> simp [mergeResult, h] <;> split <;> simp

theorem mergeResult_requeueAfter (fr res : GoResult) :
    (mergeResult fr res).requeueAfter =
      if res.requeueAfter ≠ 0
          ∧ (fr.requeueAfter = 0 ∨ fr.requeueAfter > res.requeueAfter)
      then res.requeueAfter else fr.requeueAfter := by
  cases h : res.requeue <;> simp [mergeResult, h] <;> split <;> simp_all

theorem dispatchStep_finalRes (hc : Bool) (now : Nat) (st : DispatchState)
    (rc : RComponent) :
    (dispatchStep hc now st rc).finalRes
        = mergeResult st.finalRes (stepOutcome st rc).2.2.1
    ∧ (dispatchStep hc now st rc).compResults
        = st.compResults ++ [(stepOutcome st rc).2.2.1] :=
  ⟨rfl, rfl⟩

/-- Loop invariant for C7: the accumulated result is always the spec-side
aggregate (minimum non-zero delay, OR of the flags) of the result trace. -/
theorem dispatchLoop_requeue (hc : Bool) (now : Nat) (comps : List RComponent)
    (st : DispatchState)
    (h1 : st.finalRes.requeueAfter
      = specMinNonZero (st.compResults.map GoResult.requeueAfter))
    (h2 : st.finalRes.requeue
      = (st.compResults.map GoResult.requeue).any (fun b => b)) :
    (comps.foldl (dispatchStep hc now) st).finalRes.requeueAfter
      = specMinNonZero
          ((comps.foldl (dispatchStep hc now) st).compResults.map
            GoResult.requeueAfter)
    ∧ (comps.foldl (dispatchStep hc now) st).finalRes.requeue
      = ((comps.foldl (dispatchStep hc now) st).compResults.map
          GoResult.requeue).any (fun b => b) := by
  induction comps generalizing st with
  | nil => exact ⟨h1, h2⟩
  | cons rc tl ih =>
      simp only [List.foldl_cons]
      apply ih
      · rw [(dispatchStep_finalRes hc now st rc).1,
          (dispatchStep_finalRes hc now st rc).2, mergeResult_requeueAfter,
          List.map_append, List.map_cons, List.map_nil,
          specMinNonZero_append, h1]
      · rw [(dispatchStep_finalRes hc now st rc).1,
          (dispatchStep_finalRes hc now st rc).2, mergeResult_requeue,
          List.map_append, List.map_cons, List.map_nil, List.any_append, h2]
        simp

/-- When the cycle reaches its end, the returned result is the loop's. -/
theorem runCycle_result (inp : CycleInput) (obj cleanObj : ObjectState)
    (h : inp.abortNotFound = true
      ∨ (inp.metaPatchErr = none ∧ inp.statusPatchErr = none)) :
    (runCycle inp obj cleanObj).result = (loopState inp obj).finalRes := by
  cases hab : inp.abortNotFound
  · rcases h with h | ⟨h1, h2⟩
    · rw [hab] at h; cases h
    · simp [runCycle, hab, h1, h2]
  · simp [runCycle, hab]

/-- C7: the requeue delay a cycle returns is the minimum over all non-zero
delays requested by components in that cycle (zero when none requested one),
and the immediate-requeue flag is the OR of all components' flags — provided
the cycle reached its end (abort mode, or both patches succeeded in tolerant
mode; a failed patch zeroes the returned result). -/
theorem reconcile_requeue_aggregation (inp : CycleInput)
    (hdone : inp.abortNotFound = true
      ∨ (inp.metaPatchErr = none ∧ inp.statusPatchErr = none)) :
    (Reconcile inp).result.requeueAfter
      = specMinNonZero ((Reconcile inp).compResults.map GoResult.requeueAfter)
    ∧ (Reconcile inp).result.requeue
      = ((Reconcile inp).compResults.map GoResult.requeue).any (fun b => b) := by
  have hrun : ∀ obj : ObjectState,
      (runCycle inp obj obj).result.requeueAfter
        = specMinNonZero
            ((runCycle inp obj obj).compResults.map GoResult.requeueAfter)
      ∧ (runCycle inp obj obj).result.requeue
        = ((runCycle inp obj obj).compResults.map GoResult.requeue).any
            (fun b => b) := by
    intro obj
    have hl := dispatchLoop_requeue inp.hasConditions inp.now inp.components
      (initDispatch obj) rfl rfl
    rw [runCycle_result inp obj obj hdone, (runCycle_traces inp obj obj).2.2]
    exact hl
  have haf : ∀ obj : ObjectState,
      (afterFetch inp obj).result.requeueAfter
        = specMinNonZero
            ((afterFetch inp obj).compResults.map GoResult.requeueAfter)
      ∧ (afterFetch inp obj).result.requeue
        = ((afterFetch inp obj).compResults.map GoResult.requeue).any
            (fun b => b) := by
    intro obj
    by_cases hskip :
        lookupStr obj.annotations SkipReconcileAnnotation = some "true"
    · simp [afterFetch, hskip, emptyOutput, zeroResult, specMinNonZero,
        minOrZero]
    · simp only [afterFetch, if_neg hskip]
      exact hrun obj
  obtain ⟨ab, en, rn, rns, hc, comps, f, mpe, spe, n⟩ := inp
  cases f with
  | otherError e => exact ⟨rfl, rfl⟩
  | notFound =>
      cases ab with
      | true => exact ⟨rfl, rfl⟩
      | false => exact haf (bareObject rn rns)
  | found o => exact haf o

/-- C7 counterexample to the unconditional claim: in a tolerant-mode cycle
whose metadata patch fails, the code returns the zero `ctrl.Result` even
though its one component requested an immediate requeue and a delay of 5 —
so the returned requeue-delay (0) is not the minimum of the non-zero
requested delays (5), and the returned flag (false) is not the OR of the
components' flags (true). -/
theorem requeue_signal_lost_on_patch_failure :
    (Reconcile exInpPatchFailDelay).result = zeroResult
    ∧ (Reconcile exInpPatchFailDelay).compResults.map GoResult.requeueAfter
        = [5]
    ∧ specMinNonZero
        ((Reconcile exInpPatchFailDelay).compResults.map GoResult.requeueAfter)
        = 5
    ∧ ((Reconcile exInpPatchFailDelay).compResults.map GoResult.requeue).any
        (fun b => b) = true := by
  exact ⟨by decide, by decide, by decide, by decide⟩

/-- C7 witness: two components requesting delays 9 and 4 and flags
false/true — the cycle returns delay 4 and an immediate requeue. -/
theorem reconcile_requeue_aggregation_witness :
    (Reconcile exInpTwoComps).result.requeueAfter
      = specMinNonZero ((Reconcile exInpTwoComps).compResults.map
          GoResult.requeueAfter)
    ∧ (Reconcile exInpTwoComps).result = { requeue := true, requeueAfter := 4 } := by
  refine ⟨(reconcile_requeue_aggregation exInpTwoComps (Or.inl rfl)).1, by decide⟩

end CtrlUtil
